import Mathlib

/-!
Verification development for the StochasticGrammar library
(`StochasticGrammar/Grammar.h` and `StochasticGrammar/Nodes.h`).

The embedding models:
* C++ `std::string` values as `List Char` (`Str`);
* heap pointer identity of `Node` objects as natural-number ids in an arena
  (`GrammarState.nodes`), following the arena design sketched in the design notes;
* the registry `m_pRules : unordered_map<string, shared_ptr<Node>>` as an
  association list from names to node ids;
* C++ exceptions (`Rule404Exception`, `std::invalid_argument` thrown by
  `std::stof`) as an `Except GrammarError` result;
* `float` weights and repetition counts as exact fractions (`FVal`; the
  concrete literals exercised here are exactly representable in `float`);
* recursion in the compiler and the evaluator with an explicit fuel
  parameter, so that every definition is executable and kernel-reducible.

Where the implementation is absent from the sources (the `Nodes.h` in the
repository is a stale, non-templated version that lacks `SequenceNode`,
`RepetitionNode`, `LNode`, `SwapDependingNode` and the
`Parse(std::vector<Data>&, int)` evaluation interface used by `Grammar.h`),
the corresponding definitions are modelled from the specification and are
marked `Modelled from the spec:` in their doc comments.
-/

namespace SG

/-- C++ `std::string`, modelled as a list of characters. -/
abbrev Str := List Char

/-! ## String primitives (models of the `std::string` member functions used) -/

/-- Does `pat` occur at the start of `s`? (helper for `strFind`). -/
def isPrefOf : Str → Str → Bool
  | [], _ => true
  | _ :: _, [] => false
  | p :: ps, c :: cs => p = c && isPrefOf ps cs

/-- Helper for `strFind`: scan `s`, reporting the absolute index `i` of the
first occurrence of `pat`. -/
def strFindAux (pat : Str) : Str → Nat → Option Nat
  | [], i => if isPrefOf pat [] then some i else none
  | s@(_ :: rest), i => if isPrefOf pat s then some i else strFindAux pat rest (i + 1)

/-- Models `std::string::find(pat, start)`: index of the first occurrence of
`pat` in `s` at or after `start`, or `none` (C++ `npos`). -/
def strFind (s pat : Str) (start : Nat) : Option Nat :=
  strFindAux pat (s.drop start) start

/-- Helper for `findFirstNotOf`. -/
def ffnoAux (cs : Str) : Str → Nat → Option Nat
  | [], _ => none
  | c :: rest, i => if cs.contains c then ffnoAux cs rest (i + 1) else some i

/-- Models `std::string::find_first_not_of(cs, start)`: index of the first
character at or after `start` that is not one of the characters of `cs`. -/
def findFirstNotOf (s cs : Str) (start : Nat) : Option Nat :=
  ffnoAux cs (s.drop start) start

/-- Models `std::string::substr(pos, cnt)` (with `cnt` small enough not to be
`npos`; the count is clamped to the end of the string, as in C++). -/
def substr (s : Str) (pos cnt : Nat) : Str := (s.drop pos).take cnt

/-- Models `std::string::substr(pos)` and `substr(pos, npos - k)`: the whole
remainder of the string from `pos`. -/
def substrFrom (s : Str) (pos : Nat) : Str := s.drop pos

/-- Helper for `splitTokens`, with fuel bounding the number of loop
iterations (each iteration strictly advances `last`, so `s.length + 1`
iterations always suffice). -/
def splitTokensAux (s del : Str) : Nat → Nat → List Str
  | 0, _ => []
  | fuel + 1, last =>
    match findFirstNotOf s del last with
    | none => []
    | some first =>
      match strFind s del first with
      | none => [substrFrom s first]
      | some last' => substr s first (last' - first) :: splitTokensAux s del fuel last'

/-- The splitting loop shared by `ParseSequenceRule` and `ParseSelectorRule`:
`while ((first = rule.find_first_not_of(DEL, last)) != npos) { last = rule.find(DEL, first); push(rule.substr(first, last - first)); }`.
Note that `find_first_not_of` treats the delimiter as a *set* of characters. -/
def splitTokens (s del : Str) : List Str :=
  splitTokensAux s del (s.length + 1) 0

/-! ## A model of `std::stof` -/

/-- The exact value of a parsed `float`, as an unnormalized fraction with a
positive power-of-ten denominator.  (Arithmetic on `FVal` is defined with
plain `Int`/`Nat` operations so that every concrete computation reduces in
the kernel; the literals exercised in this development are exactly
representable in `float`, so exact fractions are a faithful value model.) -/
structure FVal where
  num : Int
  den : Nat
deriving DecidableEq

/-- Comparison of two fraction values (denominators are positive). -/
def FVal.lt (a b : FVal) : Bool :=
  a.num * (b.den : Int) < b.num * (a.den : Int)

/-- Addition of two fraction values. -/
def FVal.add (a b : FVal) : FVal :=
  ⟨a.num * (b.den : Int) + b.num * (a.den : Int), a.den * b.den⟩

instance (n : Nat) : OfNat FVal n := ⟨⟨n, 1⟩⟩

instance : Neg FVal := ⟨fun a => ⟨-a.num, a.den⟩⟩

/-- Numeric value of a list of decimal digits. -/
def natOfDigits (ds : Str) : Nat :=
  ds.foldl (fun n c => 10 * n + (c.toNat - 48)) 0

/-- The whitespace characters skipped by `std::stof` (via `strtof`). -/
def isSpaceCh (c : Char) : Bool :=
  c = ' ' || c = '\t' || c = '\n' || c = '\r' || c = '\x0b' || c = '\x0c'

/-- Splits off a maximal run of leading decimal digits. -/
def takeDigits (s : Str) : Str × Str :=
  (s.takeWhile Char.isDigit, s.dropWhile Char.isDigit)

/-- Models `std::stof` on decimal inputs: optional leading whitespace, an
optional sign, digits with an optional fractional part, and an optional
decimal exponent; the longest valid numeric leading part is converted and
trailing characters are ignored.  `none` models the `std::invalid_argument`
exception thrown when no conversion can be performed.  (Hexadecimal,
infinity and NaN inputs are outside the modelled fragment.) -/
def stofM (s : Str) : Option FVal :=
  let s₁ := s.dropWhile isSpaceCh
  let sgn : Int := match s₁ with
    | '-' :: _ => -1
    | _ => 1
  let s₂ : Str := match s₁ with
    | '-' :: rest => rest
    | '+' :: rest => rest
    | _ => s₁
  let intPart := takeDigits s₂
  let hasDot : Bool := match intPart.2 with
    | '.' :: _ => true
    | _ => false
  let fracPart := takeDigits (if hasDot then intPart.2.tail else intPart.2)
  let fracDs : Str := if hasDot then fracPart.1 else []
  let s₄ : Str := if hasDot then fracPart.2 else intPart.2
  if intPart.1.isEmpty && fracDs.isEmpty then none
  else
    let mantNum : Int :=
      sgn * ((natOfDigits intPart.1 * 10 ^ fracDs.length + natOfDigits fracDs : Nat) : Int)
    let mantDen : Nat := 10 ^ fracDs.length
    let expVal : Int := match s₄ with
      | e :: rest =>
        if e = 'e' || e = 'E' then
          let esgn : Int := match rest with
            | '-' :: _ => -1
            | _ => 1
          let rest₂ : Str := match rest with
            | '-' :: r => r
            | '+' :: r => r
            | _ => rest
          let eDs := (takeDigits rest₂).1
          if eDs.isEmpty then 0 else esgn * (natOfDigits eDs : Int)
        else 0
      | [] => 0
    some (if 0 ≤ expVal then ⟨mantNum * (10 : Int) ^ expVal.toNat, mantDen⟩
          else ⟨mantNum, mantDen * 10 ^ (-expVal).toNat⟩)

/-! ## The delimiter constants of `Grammar.h` -/

/-- `SEQ_DEL " & "`. -/
def seqDel : Str := [' ', '&', ' ']

/-- `SEL_DEL " | "`. -/
def selDel : Str := [' ', '|', ' ']

/-- `REP_DEL " # "`. -/
def repDel : Str := [' ', '#', ' ']

/-- `LND_DEL " -> "`. -/
def lndDel : Str := [' ', '-', '>', ' ']

/-! ## The node graph and the registry -/

variable {Data : Type}

/-- The contents of one `Node<Data>` object.  Child references (`Node*` raw
pointers in `SequenceNode`, `SelectNode`, `RepetitionNode`, `LNode`, and the
`shared_ptr` fallback of `LNode`) are arena ids.  `repetition` stores the raw
`float` count it is constructed with, as an exact fraction. -/
inductive NodeVal (Data : Type) where
  | leaf (value : Data)
  | select (options : List (Nat × FVal))
  | sequence (elements : List Nat)
  | repetition (child : Nat) (count : FVal)
  | lnode (rule : Nat) (fallback : Nat)
deriving DecidableEq

/-- The state of one `Grammar<Data>` object: the arena of all `Node` objects
ever allocated (id ↦ contents; ids model pointer identity), the registry
`m_pRules` (name ↦ id of the mapped node), and the next fresh id. -/
structure GrammarState (Data : Type) where
  nodes : List (Nat × NodeVal Data)
  rules : List (Str × Nat)
  nextId : Nat

/-- A freshly constructed `Grammar<Data>`. -/
def emptyGrammar : GrammarState Data := ⟨[], [], 0⟩

/-- Registry lookup (`m_pRules.find`): first binding of `key` wins. -/
def lookupAssoc : List (Str × Nat) → Str → Option Nat
  | [], _ => none
  | (k, v) :: rest, key => if k = key then some v else lookupAssoc rest key

/-- Registry update (`m_pRules[key] = v`): replaces the existing binding of
`key`, or appends a new one. -/
def setAssoc : List (Str × Nat) → Str → Nat → List (Str × Nat)
  | [], key, v => [(key, v)]
  | (k, w) :: rest, key, v =>
    if k = key then (key, v) :: rest else (k, w) :: setAssoc rest key v

/-- Contents of the arena slot `nid`. -/
def arenaAt : List (Nat × NodeVal Data) → Nat → Option (NodeVal Data)
  | [], _ => none
  | (i, nv) :: rest, nid => if i = nid then some nv else arenaAt rest nid

/-- Contents of the node object with id `nid`. -/
def nodeAt (st : GrammarState Data) (nid : Nat) : Option (NodeVal Data) :=
  arenaAt st.nodes nid

/-- Allocates a fresh node object (`std::make_shared<...>`), returning the
new state and the id of the new node. -/
def allocNode (st : GrammarState Data) (nv : NodeVal Data) : GrammarState Data × Nat :=
  ({ st with nodes := (st.nextId, nv) :: st.nodes, nextId := st.nextId + 1 }, st.nextId)

/-- The direct child references held by a node. -/
def childRefs : NodeVal Data → List Nat
  | .leaf _ => []
  | .select opts => opts.map Prod.fst
  | .sequence els => els
  | .repetition c _ => [c]
  | .lnode p f => [p, f]

/-- Modelled from the spec: `Node::SwapDependingNode(old, new)` is called by
`Grammar::ChangeRule` but its implementation is absent from the sources (the
`Nodes.h` present is a stale version without it).  Per the spec, every live
node that references the old node object "must be rewritten to reference the
new one"; the model swaps every direct child reference equal to `oldId` for
`newId`. -/
def swapDependingNode (oldId newId : Nat) : NodeVal Data → NodeVal Data
  | .leaf v => .leaf v
  | .select opts => .select (opts.map fun o => (if o.1 = oldId then newId else o.1, o.2))
  | .sequence els => .sequence (els.map fun c => if c = oldId then newId else c)
  | .repetition c n => .repetition (if c = oldId then newId else c) n
  | .lnode p f => .lnode (if p = oldId then newId else p) (if f = oldId then newId else f)

/-- `Grammar::ChangeRule(ruleName, newNode)`: looks up the old node, returns
unchanged if it is the same object, otherwise rebinds the name and calls
`SwapDependingNode(old, new)` on the node mapped by every registry entry
(the rebinding happens before the loop, so the new node itself is visited).
The `none` branch is unreachable: every caller guards with
`m_pRules.find(name) != end`. -/
def changeRule (st : GrammarState Data) (name : Str) (newId : Nat) : GrammarState Data :=
  match lookupAssoc st.rules name with
  | none => { st with rules := setAssoc st.rules name newId }
  | some oldId =>
    if oldId = newId then st
    else
      let rules' := setAssoc st.rules name newId
      let img := rules'.map Prod.snd
      { st with
        rules := rules'
        nodes := st.nodes.map fun e =>
          if img.contains e.1 then (e.1, swapDependingNode oldId newId e.2) else e }

/-- The registration step shared by every `Add...Rule` member:
`if (m_pRules.find(name) != m_pRules.end()) { ChangeRule(name, node); return; } m_pRules[name] = node;`. -/
def registerOrChange (st : GrammarState Data) (name : Str) (nid : Nat) : GrammarState Data :=
  if (lookupAssoc st.rules name).isSome then changeRule st name nid
  else { st with rules := setAssoc st.rules name nid }

/-- `Grammar::AddLeaveNode(name, data)`: allocates a fresh leaf and binds it
with a plain `m_pRules[name] = leaf` — note: no `ChangeRule`, so existing
referrers of a previous binding of `name` are not rewritten. -/
def addLeaveNode (st : GrammarState Data) (name : Str) (v : Data) : GrammarState Data :=
  let r := allocNode st (NodeVal.leaf v)
  { r.1 with rules := setAssoc r.1.rules name r.2 }

/-! ## The compiler -/

/-- The C++ exceptions that can escape compilation or generation, plus the
fuel-exhaustion marker of the bounded model. -/
inductive GrammarError where
  /-- `Rule404Exception`. -/
  | rule404
  /-- `std::invalid_argument`, thrown by `std::stof` when no conversion can
  be performed. -/
  | stofInvalidArgument
  /-- Models dereferencing a default-inserted null `shared_ptr`
  (`m_pRules[rule].get()` on an absent key); unreachable in the flows
  exercised here. -/
  | nullNode
  /-- Fuel exhaustion of the bounded model (not a C++ behavior). -/
  | outOfFuel
deriving DecidableEq

/-- The type of the recursive compilation step
(`ParseRule`-shaped: state, rule name, rule text). -/
abbrev StepFn (Data : Type) :=
  GrammarState Data → Str → Str → Except GrammarError (GrammarState Data)

/-- The `// Non-existing subrule` guard shared by the `Add...Rule` members:
`if (m_pRules.find(tok) == m_pRules.end()) ParseRule(tok, tok);`. -/
def resolveIfMissing (recur : StepFn Data) (st : GrammarState Data) (tok : Str) :
    Except GrammarError (GrammarState Data) :=
  if (lookupAssoc st.rules tok).isSome then .ok st else recur st tok tok

/-- Resolves a token to a node id the way the `Add...Rule` loops do: run the
missing-subrule guard, then read `m_pRules[tok]`. -/
def resolveTok (recur : StepFn Data) (st : GrammarState Data) (tok : Str) :
    Except GrammarError (GrammarState Data × Nat) := do
  let st₁ ← resolveIfMissing recur st tok
  match lookupAssoc st₁.rules tok with
  | some cid => pure (st₁, cid)
  | none => .error .nullNode

/-- The `Grammar<std::string>::AddSingleRule` specialization (when
`promote = some mk`) and the generic `Grammar<Data>::AddSingleRule` overload
(when `promote = none`): for string payloads an unregistered token is
auto-promoted to a fresh leaf wrapping the token, registered under the token
itself (`m_pRules[rule] = make_shared<LeafNode>(rule)`), and the same call
raises `Rule404Exception` for any other payload type; then `name` is bound to the resolved node (through `ChangeRule`
when `name` already exists), without allocating any node for the alias. -/
def addSingleRule (promote : Option (Str → Data)) (st : GrammarState Data)
    (name rule : Str) : Except GrammarError (GrammarState Data) :=
  match lookupAssoc st.rules rule with
  | some rid => .ok (registerOrChange st name rid)
  | none =>
    match promote with
    | none => .error .rule404
    | some mk =>
      let r := allocNode st (NodeVal.leaf (mk rule))
      let st₁ := { r.1 with rules := setAssoc r.1.rules rule r.2 }
      .ok (registerOrChange st₁ name r.2)

/-- `Grammar::AddSelectorRule`: resolves each weighted subrule in order,
capturing the node pointer right after that token's resolution, then
registers a fresh `SelectNode` over the captured (id, weight) pairs. -/
def addSelectorRule (recur : StepFn Data) (st : GrammarState Data) (name : Str)
    (rules : List (Str × FVal)) : Except GrammarError (GrammarState Data) := do
  let acc ← rules.foldlM
    (fun acc wr => do
      let r ← resolveTok recur acc.1 wr.1
      pure (r.1, acc.2 ++ [(r.2, wr.2)]))
    ((st, []) : GrammarState Data × List (Nat × FVal))
  let r := allocNode acc.1 (NodeVal.select acc.2)
  pure (registerOrChange r.1 name r.2)

/-- `Grammar::AddSequenceRule`: resolves each subrule token in order and
registers a fresh `SequenceNode` over the captured ids. -/
def addSequenceRule (recur : StepFn Data) (st : GrammarState Data) (name : Str)
    (toks : List Str) : Except GrammarError (GrammarState Data) := do
  let acc ← toks.foldlM
    (fun acc tok => do
      let r ← resolveTok recur acc.1 tok
      pure (r.1, acc.2 ++ [r.2]))
    ((st, []) : GrammarState Data × List Nat)
  let r := allocNode acc.1 (NodeVal.sequence acc.2)
  pure (registerOrChange r.1 name r.2)

/-- `Grammar::AddRepetitionRule`: resolves the subrule, then registers a
fresh `RepetitionNode` constructed with the raw `float` count — the count is
passed through unchecked. -/
def addRepetitionRule (recur : StepFn Data) (st : GrammarState Data) (name : Str)
    (rule : Str × FVal) : Except GrammarError (GrammarState Data) := do
  let r ← resolveTok recur st rule.1
  let a := allocNode r.1 (NodeVal.repetition r.2 rule.2)
  pure (registerOrChange a.1 name a.2)

/-- `Grammar::AddLNodeRule(name, rule, fallbackRule)`: resolves `rule` and
then `fallbackRule`, then builds
`LNode(m_pRules[rule].get(), m_pRules[fallbackRule])` — both registry reads
happen after both resolutions — and registers it.  The first constructor
argument is the primary branch, the second the fallback branch. -/
def addLNodeRule (recur : StepFn Data) (st : GrammarState Data)
    (name ruleTok fbTok : Str) : Except GrammarError (GrammarState Data) := do
  let st₁ ← resolveIfMissing recur st ruleTok
  let st₂ ← resolveIfMissing recur st₁ fbTok
  match lookupAssoc st₂.rules ruleTok, lookupAssoc st₂.rules fbTok with
  | some rid, some fid =>
    let r := allocNode st₂ (NodeVal.lnode rid fid)
    pure (registerOrChange r.1 name r.2)
  | _, _ => .error .nullNode

/-- The weight token of a selector clause:
`weightString = rule.substr(0, rule.find(" "))`; when the clause has no
space, `find` yields `npos` and the whole clause is taken. -/
def clauseWeightStr (tok : Str) : Str :=
  match strFind tok [' '] 0 with
  | some i => substr tok 0 i
  | none => tok

/-- The rule-reference token of a selector clause:
`rule.substr(spaceIndex + 1, rule.length() - weightString.length() - 1)`.
When the clause has no space, `spaceIndex` is `npos`, so the position
`npos + 1` wraps to `0` and the count underflows to a huge value: the whole
clause is taken. -/
def clauseRuleStr (tok : Str) : Str :=
  match strFind tok [' '] 0 with
  | some i => substr tok (i + 1) (tok.length - i - 1)
  | none => tok

/-- The per-clause body of the `ParseSelectorRule` loop: split the clause at
its first space and convert the weight with `std::stof` — a failed conversion
raises `std::invalid_argument`; the parsed weight is used as is, with no
sign or positivity check. -/
def parseClause (tok : Str) : Except GrammarError (Str × FVal) :=
  match stofM (clauseWeightStr tok) with
  | none => .error .stofInvalidArgument
  | some w => .ok (clauseRuleStr tok, w)

/-- `Grammar::ParseSelectorRule`: split on `SEL_DEL`, convert every clause,
then `AddSelectorRule`. -/
def parseSelectorRule (recur : StepFn Data) (st : GrammarState Data)
    (name rule : Str) : Except GrammarError (GrammarState Data) := do
  let weighted ← (splitTokens rule selDel).mapM parseClause
  addSelectorRule recur st name weighted

/-- `Grammar::ParseSequenceRule`: split on `SEQ_DEL`, then `AddSequenceRule`. -/
def parseSequenceRule (recur : StepFn Data) (st : GrammarState Data)
    (name rule : Str) : Except GrammarError (GrammarState Data) :=
  addSequenceRule recur st name (splitTokens rule seqDel)

/-- `Grammar::ParseRepetitionRule`: split at the first `REP_DEL`; the left
part is the subrule token, the remainder is converted with `std::stof`
(raising `std::invalid_argument` on failure; no sign check), then
`AddRepetitionRule`.  The `none` branch is unreachable: `ParseRule` only
dispatches here when the delimiter is present. -/
def parseRepetitionRule (recur : StepFn Data) (st : GrammarState Data)
    (name rule : Str) : Except GrammarError (GrammarState Data) :=
  match strFind rule repDel 0 with
  | none => .error .nullNode
  | some i =>
    let ruleName := substr rule 0 i
    let repStr := substr rule (i + repDel.length) (rule.length - i - repDel.length)
    match stofM repStr with
    | none => .error .stofInvalidArgument
    | some q => addRepetitionRule recur st name (ruleName, q)

/-- `Grammar::ParseLNodeRule`: split at the first `LND_DEL`.  The *left*
part is bound to the local variable `fallbackName`; the remainder is bound
to `ruleName` and then `AddLNodeRule(name, ruleName, fallbackName)` is
called — so the right operand becomes the primary branch and the left
operand the fallback branch.  (The C++ computes `ruleName`'s substring count
as `rule.length() - ruleName.length() - del.length()`, reading
`ruleName.length()` inside `ruleName`'s own initializer — an uninitialized
read; it is modelled as reading `0`, which makes the count clamp to the
remainder after the delimiter, the evident intent.) -/
def parseLNodeRule (recur : StepFn Data) (st : GrammarState Data)
    (name rule : Str) : Except GrammarError (GrammarState Data) :=
  match strFind rule lndDel 0 with
  | none => .error .nullNode
  | some i =>
    let fallbackName := substr rule 0 i
    let ruleName := substr rule (i + lndDel.length) (rule.length - lndDel.length)
    addLNodeRule recur st name ruleName fallbackName

/-- `Grammar::ParseRule(name, rule)`: dispatch on the first delimiter found,
in the fixed order `LND_DEL`, `SEQ_DEL`, `SEL_DEL`, `REP_DEL` (presence
only — `find(...) != npos` — not position), falling through to
`ParseSingleRule`/`AddSingleRule` when none is present.  The fuel bounds the
recursion through the missing-subrule guards. -/
def parseRule (promote : Option (Str → Data)) : Nat → StepFn Data
  | 0 => fun _ _ _ => .error .outOfFuel
  | fuel + 1 => fun st name rule =>
    if (strFind rule lndDel 0).isSome then
      parseLNodeRule (parseRule promote fuel) st name rule
    else if (strFind rule seqDel 0).isSome then
      parseSequenceRule (parseRule promote fuel) st name rule
    else if (strFind rule selDel 0).isSome then
      parseSelectorRule (parseRule promote fuel) st name rule
    else if (strFind rule repDel 0).isSome then
      parseRepetitionRule (parseRule promote fuel) st name rule
    else
      addSingleRule promote st name rule

/-- `Grammar<std::string>::ParseRule`, with `String` arguments for
convenience: the leaf auto-promotion wraps the literal token. -/
def parseRuleString (fuel : Nat) (st : GrammarState Str) (name rule : String) :
    Except GrammarError (GrammarState Str) :=
  parseRule (some (fun s => s)) fuel st name.toList rule.toList

/-! ## The generation engine -/

/-- Modelled from the spec: truncation of the stored `float` repetition count
to a non-negative integer, toward zero (`RepetitionNode`'s implementation is
absent from the sources; the spec prescribes "coerced to a non-negative
integer by truncation toward zero"). -/
def ratToCount (q : FVal) : Nat := q.num.toNat / q.den

/-- Modelled from the spec: the selector draw — given the sampled value `s`,
"select the first option whose running cumulative weight exceeds the
sample". -/
def pickOption (s : FVal) : List (Nat × FVal) → FVal → Option Nat
  | [], _ => none
  | (cid, w) :: rest, acc =>
    if FVal.lt s (acc.add w) then some cid else pickOption s rest (acc.add w)

/-- Modelled from the spec: `Node::Parse(std::vector<Data>&, int)` — the
depth-first evaluation of the node graph (the templated node implementations
are absent from the sources; `Grammar.h` calls `Parse(result, 0)`).  The
evaluator is written as the explicit work-list loop suggested by the design
notes, which produces the same depth-first, left-to-right output as the
recursive form: a leaf emits its value; a sequence enqueues its children in
order at the same depth; a selector consumes the next pseudo-random sample
from `samples` and evaluates only the drawn option; a repetition enqueues
its child `ratToCount count` times; a fallback (`LNode`) evaluates its
primary branch with depth incremented while `depth` is strictly below
`maxDepth`, and its fallback branch (at unchanged depth) once the limit is
reached.  Fuel bounds the loop; `none` models non-termination/fuel
exhaustion or a failed draw. -/
def evalF (maxDepth : Nat) : Nat → GrammarState Data → List FVal → List (Nat × Nat) →
    Option (List FVal × List Data)
  | _, _, samples, [] => some (samples, [])
  | 0, _, _, _ :: _ => none
  | fuel + 1, st, samples, (nid, depth) :: rest =>
    match nodeAt st nid with
    | none => none
    | some (.leaf v) =>
      (evalF maxDepth fuel st samples rest).map fun r => (r.1, v :: r.2)
    | some (.sequence els) =>
      evalF maxDepth fuel st samples ((els.map fun c => (c, depth)) ++ rest)
    | some (.select opts) =>
      match pickOption (samples.headD 0) opts 0 with
      | none => none
      | some cid => evalF maxDepth fuel st samples.tail ((cid, depth) :: rest)
    | some (.repetition cid q) =>
      evalF maxDepth fuel st samples (List.replicate (ratToCount q) (cid, depth) ++ rest)
    | some (.lnode p f) =>
      if depth < maxDepth then evalF maxDepth fuel st samples ((p, depth + 1) :: rest)
      else evalF maxDepth fuel st samples ((f, depth) :: rest)

/-- `Grammar::GenerateSequence(ruleName)`: raises `Rule404Exception` when the
name has no registry entry — the check happens at lookup time, before any
evaluation — and otherwise evaluates the mapped node at depth `0`.
`maxDepth` is the configured fallback depth limit, `samples` the
pseudo-random samples consumed by selector draws, `fuel` the evaluation
bound of the model. -/
def generateSequence (maxDepth fuel : Nat) (st : GrammarState Data)
    (samples : List FVal) (name : Str) : Except GrammarError (Option (List Data)) :=
  match lookupAssoc st.rules name with
  | none => .error .rule404
  | some nid => .ok ((evalF maxDepth fuel st samples [(nid, 0)]).map Prod.snd)

/-! ## Concrete scenarios used by several theorems -/

/-- Runs one `ParseRule` call on a string grammar with ample fuel, keeping
the previous state on error (no scenario in this development errors). -/
def stepG (st : GrammarState Str) (name rule : String) : GrammarState Str :=
  match parseRuleString 32 st name rule with
  | .ok st' => st'
  | .error _ => st

/-- A grammar holding `R := x` (so `R` aliases the leaf node `"x"`, id `0`)
and the composite `S := A & R` (a `SequenceNode`, id `2`, whose children are
the leaf `"A"` (id `1`) and the node currently bound to `R` (id `0`)). -/
def rsBase : GrammarState Str := stepG (stepG emptyGrammar "R" "x") "S" "A & R"

/-- Projects a view out of a successful result (`none` on error). -/
def okProj {ε α β : Type} (e : Except ε α) (f : α → β) : Option β :=
  match e with
  | .ok a => some (f a)
  | .error _ => none

/-! ## Registry and graph lemmas -/

theorem okProj_ok {ε α β : Type} (a : α) (f : α → β) :
    okProj (Except.ok a : Except ε α) f = some (f a) := rfl

theorem bind_ok_ex {ε α β : Type} (a : α) (f : α → Except ε β) :
    (Except.ok a : Except ε α) >>= f = f a := rfl

theorem lookup_setAssoc_self (l : List (Str × Nat)) (k : Str) (v : Nat) :
    lookupAssoc (setAssoc l k v) k = some v := by
  induction l with
  | nil => simp [setAssoc, lookupAssoc]
  | cons hd tl ih =>
    obtain ⟨a, b⟩ := hd
    by_cases h : a = k
    · simp [setAssoc, h, lookupAssoc]
    · simp [setAssoc, h, lookupAssoc, ih]

theorem lookup_setAssoc_ne (l : List (Str × Nat)) (k key : Str) (v : Nat)
    (hne : ¬ k = key) : lookupAssoc (setAssoc l k v) key = lookupAssoc l key := by
  induction l with
  | nil => simp [setAssoc, lookupAssoc, hne]
  | cons hd tl ih =>
    obtain ⟨a, b⟩ := hd
    by_cases h : a = k
    · subst h
      simp [setAssoc, lookupAssoc, hne]
    · simp [setAssoc, h, lookupAssoc, ih]

theorem childRefs_swap (oldId newId : Nat) (nv : NodeVal Data) :
    childRefs (swapDependingNode oldId newId nv) =
      (childRefs nv).map (fun c => if c = oldId then newId else c) := by
  cases nv <;>
    simp [swapDependingNode, childRefs, List.map_map, Function.comp]

theorem old_not_mem_swap (oldId newId : Nat) (hne : oldId ≠ newId)
    (nv : NodeVal Data) : oldId ∉ childRefs (swapDependingNode oldId newId nv) := by
  rw [childRefs_swap]
  intro hmem
  obtain ⟨c, _, hc⟩ := List.mem_map.mp hmem
  by_cases h' : c = oldId
  · rw [if_pos h'] at hc
    exact hne hc.symm
  · rw [if_neg h'] at hc
    exact h' hc

/-! ## Claims -/

/-- C8: for every name with no registry entry, `GenerateSequence` fails with
`Rule404Exception`, raised at lookup time before any evaluation — the result
is the error for every fuel and sample stream, including `fuel = 0`, under
which no evaluation step can run at all. -/
theorem c8_generate_unknown_rule404 :
    ∀ (Data : Type) (maxDepth fuel : Nat) (st : GrammarState Data)
      (samples : List FVal) (name : Str),
      lookupAssoc st.rules name = none →
      generateSequence maxDepth fuel st samples name = .error .rule404 := by
  intro Data maxDepth fuel st samples name h
  simp [generateSequence, h]

/-- C8 witness: generating from the name `"unknown"` in a fresh grammar
fails with `Rule404Exception`, even with zero evaluation fuel. -/
theorem c8_witness :
    generateSequence 5 0 (emptyGrammar : GrammarState String) [] "unknown".toList =
      .error .rule404 :=
  c8_generate_unknown_rule404 String 5 0 emptyGrammar [] "unknown".toList rfl

/-- C9: after `AddLeaveNode(name, v)` (`register_leaf`), generating `name`
yields exactly the one-element sequence `[v]`, for every prior grammar
state, depth limit and sample stream.  (`LeafNode::Parse` is modelled from
the spec — "evaluation yields exactly that value" — since the templated node
implementations are absent from the sources.) -/
theorem c9_register_leaf_generate :
    ∀ (Data : Type) (st : GrammarState Data) (name : Str) (v : Data)
      (maxDepth fuel : Nat) (samples : List FVal),
      generateSequence maxDepth (fuel + 1) (addLeaveNode st name v) samples name =
        .ok (some [v]) := by
  intro Data st name v maxDepth fuel samples
  simp [generateSequence, addLeaveNode, allocNode, lookup_setAssoc_self,
    evalF, nodeAt, arenaAt]

/-- C10: `AddLeaveNode` on an already-bound name rebinds the registry entry
to a fresh leaf but performs no `ChangeRule`: every previously allocated
node — in particular every composite's child references — is left byte-for-
byte unchanged, so composites compiled against the old binding keep
evaluating the old node object.  Concretely: in `rsBase`, `S` is a sequence
whose second child is node `0` (the leaf `"x"` that `R` was bound to);
after `AddLeaveNode(R, "y")` the sequence node still holds child `0`,
generating `S` still yields `["A", "x"]`, while generating `R` yields the
new `["y"]` — unlike the text-based redefinition of C1, which patches the
sequence's child reference. -/
theorem c10_register_leaf_keeps_referrers :
    (∀ (Data : Type) (st : GrammarState Data) (name : Str) (v : Data),
      lookupAssoc (addLeaveNode st name v).rules name = some st.nextId ∧
      nodeAt (addLeaveNode st name v) st.nextId = some (.leaf v) ∧
      (addLeaveNode st name v).nodes = (st.nextId, .leaf v) :: st.nodes) ∧
    lookupAssoc rsBase.rules "R".toList = some 0 ∧
    nodeAt rsBase 2 = some (.sequence [1, 0]) ∧
    lookupAssoc (addLeaveNode rsBase "R".toList "y".toList).rules "R".toList = some 3 ∧
    nodeAt (addLeaveNode rsBase "R".toList "y".toList) 2 = some (.sequence [1, 0]) ∧
    generateSequence 5 32 (addLeaveNode rsBase "R".toList "y".toList) [] "S".toList =
      .ok (some ["A".toList, "x".toList]) ∧
    generateSequence 5 32 (addLeaveNode rsBase "R".toList "y".toList) [] "R".toList =
      .ok (some ["y".toList]) := by
  refine ⟨?_, rfl, rfl, rfl, rfl, rfl, rfl⟩
  intro Data st name v
  refine ⟨?_, ?_, rfl⟩
  · simp [addLeaveNode, allocNode, lookup_setAssoc_self]
  · simp [addLeaveNode, allocNode, nodeAt, arenaAt]

/-- C1: redefining a name that already has a registry entry routes through
`ChangeRule`, which rebinds the name and rewrites, in every node mapped by
the registry (all live nodes are), every child reference to the old node
into a reference to the new one — the rewritten node no longer references
the old node at all.  Concretely, end to end: in `rsBase` the sequence `S`
(node `2`) holds children `[1, 0]` with `R ↦ 0`; recompiling rule text under
the existing name `R` (`ParseRule("R", "y")`) rebinds `R ↦ 3` (the fresh
leaf `"y"`) and patches the already-compiled sequence in place to `[1, 3]`,
so generating `S` — without recompiling it — now yields `["A", "y"]`.
(`SwapDependingNode`'s implementation is absent from the sources and is
modelled from the spec as swapping every direct child reference.) -/
theorem c1_redefine_patches_referrers :
    (∀ (Data : Type) (st : GrammarState Data) (name : Str) (oldId newId : Nat),
      lookupAssoc st.rules name = some oldId → oldId ≠ newId →
        lookupAssoc (changeRule st name newId).rules name = some newId ∧
        ∀ id nv, (id, nv) ∈ st.nodes →
          ((setAssoc st.rules name newId).map Prod.snd).contains id = true →
            (id, swapDependingNode oldId newId nv) ∈ (changeRule st name newId).nodes ∧
            oldId ∉ childRefs (swapDependingNode oldId newId nv) ∧
            childRefs (swapDependingNode oldId newId nv) =
              (childRefs nv).map (fun c => if c = oldId then newId else c)) ∧
    lookupAssoc rsBase.rules "R".toList = some 0 ∧
    nodeAt rsBase 2 = some (.sequence [1, 0]) ∧
    parseRuleString 32 rsBase "R" "y" = .ok (stepG rsBase "R" "y") ∧
    lookupAssoc (stepG rsBase "R" "y").rules "R".toList = some 3 ∧
    nodeAt (stepG rsBase "R" "y") 3 = some (.leaf "y".toList) ∧
    nodeAt (stepG rsBase "R" "y") 2 = some (.sequence [1, 3]) ∧
    lookupAssoc (stepG rsBase "R" "y").rules "S".toList = some 2 ∧
    generateSequence 5 32 (stepG rsBase "R" "y") [] "S".toList =
      .ok (some ["A".toList, "y".toList]) := by
  refine ⟨?_, rfl, rfl, rfl, rfl, rfl, rfl, rfl, rfl⟩
  intro Data st name oldId newId hOld hNe
  constructor
  · simp [changeRule, hOld, hNe, lookup_setAssoc_self]
  · intro id nv hmem hcont
    refine ⟨?_, old_not_mem_swap oldId newId hNe nv, childRefs_swap oldId newId nv⟩
    have hfe : (fun e : Nat × NodeVal Data =>
        if ((setAssoc st.rules name newId).map Prod.snd).contains e.1 then
          (e.1, swapDependingNode oldId newId e.2) else e) (id, nv) =
        (id, swapDependingNode oldId newId nv) := if_pos hcont
    have hm := List.mem_map_of_mem
      (fun e : Nat × NodeVal Data =>
        if ((setAssoc st.rules name newId).map Prod.snd).contains e.1 then
          (e.1, swapDependingNode oldId newId e.2) else e) hmem
    rw [hfe] at hm
    simp only [changeRule, hOld, if_neg hNe]
    exact hm

/-- C1 witness: the general redefinition mechanism applied at the concrete
redefinition `R ↦ 3` in `rsBase`: the registry is rebound, and the live
sequence node `(2, sequence [1, 0])` is rewritten to `(2, sequence [1, 3])`,
which references the old node `0` nowhere. -/
theorem c1_witness :
    lookupAssoc (changeRule rsBase "R".toList 3).rules "R".toList = some 3 ∧
    (2, swapDependingNode 0 3 (NodeVal.sequence [1, 0] : NodeVal Str)) ∈
      (changeRule rsBase "R".toList 3).nodes ∧
    0 ∉ childRefs (swapDependingNode 0 3 (NodeVal.sequence [1, 0] : NodeVal Str)) := by
  have h := c1_redefine_patches_referrers.1 Str rsBase "R".toList 0 3 (by rfl) (by decide)
  have h2 := h.2 2 (NodeVal.sequence [1, 0]) (by decide) (by rfl)
  exact ⟨h.1, h2.1, h2.2.1⟩

/-- C3: `ParseRule` dispatches on delimiter *presence* in the fixed order
`" -> "` (fallback), `" & "` (sequence), `" | "` (selector), `" # "`
(repetition) — the first delimiter present in that order decides the
variant, regardless of where in the text the delimiters occur — and a text
containing none of the four delimiters is handled by `AddSingleRule` as an
atomic reference. -/
theorem c3_dispatch_precedence :
    ∀ (Data : Type) (promote : Option (Str → Data)) (fuel : Nat)
      (st : GrammarState Data) (name rule : Str),
      ((strFind rule lndDel 0).isSome = true →
        parseRule promote (fuel + 1) st name rule =
          parseLNodeRule (parseRule promote fuel) st name rule) ∧
      ((strFind rule lndDel 0).isSome = false →
       (strFind rule seqDel 0).isSome = true →
        parseRule promote (fuel + 1) st name rule =
          parseSequenceRule (parseRule promote fuel) st name rule) ∧
      ((strFind rule lndDel 0).isSome = false →
       (strFind rule seqDel 0).isSome = false →
       (strFind rule selDel 0).isSome = true →
        parseRule promote (fuel + 1) st name rule =
          parseSelectorRule (parseRule promote fuel) st name rule) ∧
      ((strFind rule lndDel 0).isSome = false →
       (strFind rule seqDel 0).isSome = false →
       (strFind rule selDel 0).isSome = false →
       (strFind rule repDel 0).isSome = true →
        parseRule promote (fuel + 1) st name rule =
          parseRepetitionRule (parseRule promote fuel) st name rule) ∧
      ((strFind rule lndDel 0).isSome = false →
       (strFind rule seqDel 0).isSome = false →
       (strFind rule selDel 0).isSome = false →
       (strFind rule repDel 0).isSome = false →
        parseRule promote (fuel + 1) st name rule = addSingleRule promote st name rule) := by
  intro Data promote fuel st name rule
  refine ⟨fun h1 => ?_, fun h1 h2 => ?_, fun h1 h2 h3 => ?_,
    fun h1 h2 h3 h4 => ?_, fun h1 h2 h3 h4 => ?_⟩
  · simp [parseRule, h1]
  · simp [parseRule, h1, h2]
  · simp [parseRule, h1, h2, h3]
  · simp [parseRule, h1, h2, h3, h4]
  · simp [parseRule, h1, h2, h3, h4]

/-- C3 witness: the dispatch applied at concrete rule texts, one per arm.
In `"A & B -> C"` the sequence delimiter occurs *earlier* in the text, yet
the fallback arm is taken, because only presence in the fixed order
decides. -/
theorem c3_witness :
    (parseRuleString 8 emptyGrammar "N" "A & B -> C" =
      parseLNodeRule (parseRule (some fun s => s) 7) emptyGrammar
        "N".toList "A & B -> C".toList) ∧
    (parseRuleString 8 emptyGrammar "N" "A & B" =
      parseSequenceRule (parseRule (some fun s => s) 7) emptyGrammar
        "N".toList "A & B".toList) ∧
    (parseRuleString 8 emptyGrammar "N" "1 A | 2 B" =
      parseSelectorRule (parseRule (some fun s => s) 7) emptyGrammar
        "N".toList "1 A | 2 B".toList) ∧
    (parseRuleString 8 emptyGrammar "N" "A # 2" =
      parseRepetitionRule (parseRule (some fun s => s) 7) emptyGrammar
        "N".toList "A # 2".toList) ∧
    (parseRuleString 8 emptyGrammar "N" "A" =
      addSingleRule (some fun s => s) emptyGrammar "N".toList "A".toList) := by
  refine ⟨?_, ?_, ?_, ?_, ?_⟩
  · exact (c3_dispatch_precedence Str (some fun s => s) 7 emptyGrammar
      "N".toList "A & B -> C".toList).1 (by decide)
  · exact (c3_dispatch_precedence Str (some fun s => s) 7 emptyGrammar
      "N".toList "A & B".toList).2.1 (by decide) (by decide)
  · exact (c3_dispatch_precedence Str (some fun s => s) 7 emptyGrammar
      "N".toList "1 A | 2 B".toList).2.2.1 (by decide) (by decide) (by decide)
  · exact (c3_dispatch_precedence Str (some fun s => s) 7 emptyGrammar
      "N".toList "A # 2".toList).2.2.2.1 (by decide) (by decide) (by decide) (by decide)
  · exact (c3_dispatch_precedence Str (some fun s => s) 7 emptyGrammar
      "N".toList "A".toList).2.2.2.2 (by decide) (by decide) (by decide) (by decide)

/-- C4: evaluating a fallback node (`LNode`) with recursion depth strictly
below the configured limit takes the primary branch (with depth
incremented); at or beyond the limit it takes the fallback branch instead.
(The `LNode` evaluation is modelled from the spec, the templated node
implementations being absent from the sources.) -/
theorem c4_fallback_depth_limit :
    ∀ (Data : Type) (st : GrammarState Data) (maxDepth fuel nid depth p f : Nat)
      (samples : List FVal) (rest : List (Nat × Nat)),
      nodeAt st nid = some (.lnode p f) →
      (depth < maxDepth →
        evalF maxDepth (fuel + 1) st samples ((nid, depth) :: rest) =
          evalF maxDepth fuel st samples ((p, depth + 1) :: rest)) ∧
      (maxDepth ≤ depth →
        evalF maxDepth (fuel + 1) st samples ((nid, depth) :: rest) =
          evalF maxDepth fuel st samples ((f, depth) :: rest)) := by
  intro Data st maxDepth fuel nid depth p f samples rest h
  constructor
  · intro hd
    simp [evalF, h, hd]
  · intro hd
    simp [evalF, h, Nat.not_lt.mpr hd]

/-- C4 witness: in the compiled grammar `N := A -> B` (node `2` is
`lnode 0 1`), with depth limit `1`: at depth `0` evaluation steps into the
primary branch (node `0`) at depth `1`; at depth `1` it steps into the
fallback branch (node `1`) instead. -/
theorem c4_witness :
    (0 < 1 ∧
      evalF 1 4 (stepG emptyGrammar "N" "A -> B") [] [(2, 0)] =
        evalF 1 3 (stepG emptyGrammar "N" "A -> B") [] [(0, 1)]) ∧
    (1 ≤ 1 ∧
      evalF 1 4 (stepG emptyGrammar "N" "A -> B") [] [(2, 1)] =
        evalF 1 3 (stepG emptyGrammar "N" "A -> B") [] [(1, 1)]) := by
  constructor
  · exact ⟨by decide,
      (c4_fallback_depth_limit Str (stepG emptyGrammar "N" "A -> B") 1 3 2 0 0 1 [] []
        (by rfl)).1 (by decide)⟩
  · exact ⟨by decide,
      (c4_fallback_depth_limit Str (stepG emptyGrammar "N" "A -> B") 1 3 2 1 0 1 [] []
        (by rfl)).2 (by decide)⟩

/-- C2 counterexample: compiling `N := "A -> B"` in a fresh string grammar
produces the leaf `"B"` at id `0`, the leaf `"A"` at id `1`, and binds `N`
to the node `lnode 0 1` — primary child the node compiled from the *right*
operand `B`, fallback child the node compiled from the *left* operand `A` —
and not to `lnode 1 0` as the claim (primary = `A`, fallback = `B`) states. -/
theorem c2_counterexample :
    parseRuleString 32 emptyGrammar "N" "A -> B" = .ok (stepG emptyGrammar "N" "A -> B") ∧
    lookupAssoc (stepG emptyGrammar "N" "A -> B").rules "B".toList = some 0 ∧
    lookupAssoc (stepG emptyGrammar "N" "A -> B").rules "A".toList = some 1 ∧
    nodeAt (stepG emptyGrammar "N" "A -> B") 0 = some (.leaf "B".toList) ∧
    nodeAt (stepG emptyGrammar "N" "A -> B") 1 = some (.leaf "A".toList) ∧
    lookupAssoc (stepG emptyGrammar "N" "A -> B").rules "N".toList = some 2 ∧
    nodeAt (stepG emptyGrammar "N" "A -> B") 2 = some (.lnode 0 1) ∧
    ¬ nodeAt (stepG emptyGrammar "N" "A -> B") 2 = some (.lnode 1 0) :=
  ⟨rfl, rfl, rfl, rfl, rfl, rfl, rfl, by decide⟩

/-- C2 amended: for every rule text containing `" -> "`, `ParseLNodeRule`
splits at the first occurrence and calls
`AddLNodeRule(name, rightOperand, leftOperand)` — the *right* operand is the
`rule` argument and the *left* operand the `fallbackRule` argument — and
`AddLNodeRule` builds the fallback node with the `rule` resolution as the
primary child and the `fallbackRule` resolution as the fallback child. -/
theorem c2_amended_right_operand_is_primary :
    (∀ (Data : Type) (recur : StepFn Data) (st : GrammarState Data)
       (name rule : Str) (i : Nat),
       strFind rule lndDel 0 = some i →
       parseLNodeRule recur st name rule =
         addLNodeRule recur st name
           (substr rule (i + lndDel.length) (rule.length - lndDel.length))
           (substr rule 0 i)) ∧
    (∀ (Data : Type) (recur : StepFn Data) (st st₁ st₂ : GrammarState Data)
       (name ruleTok fbTok : Str) (rid fid : Nat),
       resolveIfMissing recur st ruleTok = .ok st₁ →
       resolveIfMissing recur st₁ fbTok = .ok st₂ →
       lookupAssoc st₂.rules ruleTok = some rid →
       lookupAssoc st₂.rules fbTok = some fid →
       lookupAssoc st₂.rules name = none →
       addLNodeRule recur st name ruleTok fbTok =
         .ok { st₂ with
                 nodes := (st₂.nextId, NodeVal.lnode rid fid) :: st₂.nodes,
                 rules := setAssoc st₂.rules name st₂.nextId,
                 nextId := st₂.nextId + 1 }) := by
  constructor
  · intro Data recur st name rule i h
    simp [parseLNodeRule, h]
  · intro Data recur st st₁ st₂ name ruleTok fbTok rid fid h1 h2 h3 h4 h5
    simp only [addLNodeRule, h1, bind_ok_ex, h2, h3, h4]
    simp [registerOrChange, h5, allocNode]
    rfl

/-- C2 witness: the amended claim applied at the concrete input
`"A -> B"`: the split passes `"B"` as the rule token and `"A"` as the
fallback token, and the resulting node is `lnode` of (id of `"B"`'s node,
id of `"A"`'s node). -/
theorem c2_witness :
    (parseLNodeRule (parseRule (some fun s => s) 31) emptyGrammar
        "N".toList "A -> B".toList =
      addLNodeRule (parseRule (some fun s => s) 31) emptyGrammar
        "N".toList "B".toList "A".toList) ∧
    addLNodeRule (parseRule (some fun s => s) 31) emptyGrammar
        "N".toList "B".toList "A".toList =
      .ok ⟨[(2, .lnode 0 1), (1, .leaf "A".toList), (0, .leaf "B".toList)],
           [("B".toList, 0), ("A".toList, 1), ("N".toList, 2)], 3⟩ := by
  constructor
  · exact c2_amended_right_operand_is_primary.1 Str (parseRule (some fun s => s) 31)
      emptyGrammar "N".toList "A -> B".toList 1 (by decide)
  · exact c2_amended_right_operand_is_primary.2 Str (parseRule (some fun s => s) 31)
      emptyGrammar
      ⟨[(0, .leaf "B".toList)], [("B".toList, 0)], 1⟩
      ⟨[(1, .leaf "A".toList), (0, .leaf "B".toList)],
        [("B".toList, 0), ("A".toList, 1)], 2⟩
      "N".toList "B".toList "A".toList 0 1 rfl rfl rfl rfl rfl

/-- C5 counterexample: compiling the selector `S := "0 A | 1 B"` *succeeds*,
storing the non-positive weight `0` unchanged (the claim says it must fail
with `NonPositiveWeight`; no such check or error exists); likewise
`"-1 A | 1 B"` succeeds with weight `-1`; and a clause missing the weight
token (`"A | 1 B"`, first clause `"A"`) fails with the `std::invalid_argument`
of `std::stof`, not with a `MalformedClause` error (which does not exist). -/
theorem c5_counterexample :
    parseRuleString 32 emptyGrammar "S" "0 A | 1 B" =
      .ok (stepG emptyGrammar "S" "0 A | 1 B") ∧
    lookupAssoc (stepG emptyGrammar "S" "0 A | 1 B").rules "S".toList = some 2 ∧
    nodeAt (stepG emptyGrammar "S" "0 A | 1 B") 2 = some (.select [(0, 0), (1, 1)]) ∧
    parseRuleString 32 emptyGrammar "S2" "-1 A | 1 B" =
      .ok (stepG emptyGrammar "S2" "-1 A | 1 B") ∧
    nodeAt (stepG emptyGrammar "S2" "-1 A | 1 B") 2 = some (.select [(0, -1), (1, 1)]) ∧
    parseRuleString 32 emptyGrammar "T" "A | 1 B" = .error .stofInvalidArgument :=
  ⟨rfl, rfl, rfl, rfl, rfl, rfl⟩

/-- C5 amended: for every selector clause, a weight token that `std::stof`
cannot convert makes compilation fail with `std::invalid_argument`; a weight
that does parse is accepted *unchanged*, whatever its sign (no
`NonPositiveWeight` check exists); a clause with no space separator uses the
entire clause as both the weight token and the rule token (through `size_t`
wraparound of `npos`), so a missing weight fails only through `std::stof`;
and `ParseSelectorRule` is exactly clause conversion followed by
`AddSelectorRule`. -/
theorem c5_amended_weight_handling :
    (∀ tok : Str, stofM (clauseWeightStr tok) = none →
       parseClause tok = .error .stofInvalidArgument) ∧
    (∀ (tok : Str) (w : FVal), stofM (clauseWeightStr tok) = some w →
       parseClause tok = .ok (clauseRuleStr tok, w)) ∧
    (∀ tok : Str, strFind tok [' '] 0 = none →
       clauseWeightStr tok = tok ∧ clauseRuleStr tok = tok) ∧
    (∀ (Data : Type) (recur : StepFn Data) (st : GrammarState Data) (name rule : Str),
       parseSelectorRule recur st name rule =
         (splitTokens rule selDel).mapM parseClause >>= addSelectorRule recur st name) := by
  refine ⟨?_, ?_, ?_, ?_⟩
  · intro tok h
    simp [parseClause, h]
  · intro tok w h
    simp [parseClause, h]
  · intro tok h
    exact ⟨by simp [clauseWeightStr, h], by simp [clauseRuleStr, h]⟩
  · intro Data recur st name rule
    rfl

/-- C5 witness: the amended clause handling at concrete clauses: `"A"` (no
weight token) fails through `std::stof`; `"0 A"` and `"-1 A"` are accepted
with weights `0` and `-1`. -/
theorem c5_witness :
    parseClause "A".toList = .error .stofInvalidArgument ∧
    parseClause "0 A".toList = .ok ("A".toList, 0) ∧
    parseClause "-1 A".toList = .ok ("A".toList, -1) ∧
    (clauseWeightStr "A".toList = "A".toList ∧ clauseRuleStr "A".toList = "A".toList) := by
  refine ⟨?_, ?_, ?_, ?_⟩
  · exact c5_amended_weight_handling.1 "A".toList rfl
  · exact c5_amended_weight_handling.2.1 "0 A".toList 0 rfl
  · exact c5_amended_weight_handling.2.1 "-1 A".toList (-1) rfl
  · exact c5_amended_weight_handling.2.2.1 "A".toList rfl

/-- C6 counterexample: compiling `R := "A # -2"` *succeeds* — the negative
parsed count `-2` is stored in the `RepetitionNode` unchecked (the claim
says compilation must fail with `InvalidRepetitionCount`; no such check or
error exists anywhere in the compiler). -/
theorem c6_counterexample :
    parseRuleString 32 emptyGrammar "R" "A # -2" =
      .ok (stepG emptyGrammar "R" "A # -2") ∧
    lookupAssoc (stepG emptyGrammar "R" "A # -2").rules "R".toList = some 1 ∧
    nodeAt (stepG emptyGrammar "R" "A # -2") 1 = some (.repetition 0 (-2)) :=
  ⟨rfl, rfl, rfl⟩

/-- C6 amended: the repetition count is parsed with `std::stof` (conversion
failure raises `std::invalid_argument`) and the parsed value — negative or
not — is passed to the `RepetitionNode` unchecked, so a negative count does
not make compilation fail; the coercion to a non-negative integer by
truncation toward zero happens at evaluation time (modelled from the spec),
where a negative stored count yields zero repetitions. -/
theorem c6_amended_count_unchecked :
    (∀ (Data : Type) (recur : StepFn Data) (st : GrammarState Data)
       (name rule : Str) (i : Nat),
       strFind rule repDel 0 = some i →
       (stofM (substr rule (i + repDel.length) (rule.length - i - repDel.length)) = none →
         parseRepetitionRule recur st name rule = .error .stofInvalidArgument) ∧
       (∀ q : FVal,
         stofM (substr rule (i + repDel.length) (rule.length - i - repDel.length)) = some q →
         parseRepetitionRule recur st name rule =
           addRepetitionRule recur st name (substr rule 0 i, q))) ∧
    (∀ (Data : Type) (recur : StepFn Data) (st st₁ : GrammarState Data)
       (name tok : Str) (cid : Nat) (q : FVal),
       resolveTok recur st tok = .ok (st₁, cid) →
       lookupAssoc st₁.rules name = none →
       addRepetitionRule recur st name (tok, q) =
         .ok { st₁ with
                 nodes := (st₁.nextId, NodeVal.repetition cid q) :: st₁.nodes,
                 rules := setAssoc st₁.rules name st₁.nextId,
                 nextId := st₁.nextId + 1 }) ∧
    (∀ q : FVal, q.num < 0 → ratToCount q = 0) := by
  refine ⟨?_, ?_, ?_⟩
  · intro Data recur st name rule i h
    constructor
    · intro hn
      simp [parseRepetitionRule, h, hn]
    · intro q hq
      simp [parseRepetitionRule, h, hq]
  · intro Data recur st st₁ name tok cid q h1 h2
    simp only [addRepetitionRule, h1, bind_ok_ex]
    simp [registerOrChange, h2, allocNode]
    rfl
  · intro q hq
    simp [ratToCount, Int.toNat_of_nonpos (le_of_lt hq)]

/-- C6 witness: the amended claim at the concrete rule `"A # -2"`: the
count `-2` parses and flows into `AddRepetitionRule`, which succeeds and
stores it; at evaluation, `-2` truncates to `0` repetitions. -/
theorem c6_witness :
    (parseRepetitionRule (parseRule (some fun s => s) 31) emptyGrammar
        "R".toList "A # -2".toList =
      addRepetitionRule (parseRule (some fun s => s) 31) emptyGrammar
        "R".toList ("A".toList, -2)) ∧
    (addRepetitionRule (parseRule (some fun s => s) 31) emptyGrammar
        "R".toList ("A".toList, -2) =
      .ok ⟨[(1, .repetition 0 (-2)), (0, .leaf "A".toList)],
           [("A".toList, 0), ("R".toList, 1)], 2⟩) ∧
    ratToCount (-2) = 0 := by
  refine ⟨?_, ?_, ?_⟩
  · exact ((c6_amended_count_unchecked.1 Str (parseRule (some fun s => s) 31)
      emptyGrammar "R".toList "A # -2".toList 1 (by decide)).2 (-2) (by decide))
  · exact c6_amended_count_unchecked.2.1 Str (parseRule (some fun s => s) 31)
      emptyGrammar ⟨[(0, .leaf "A".toList)], [("A".toList, 0)], 1⟩
      "R".toList "A".toList 0 (-2) rfl rfl
  · exact c6_amended_count_unchecked.2.2 (-2) (by decide)

theorem fst_patch_eq (img : List Nat) (o n : Nat) (e : Nat × NodeVal Data) :
    (if img.contains e.1 then (e.1, swapDependingNode o n e.2) else e).1 = e.1 := by
  split <;> rfl

theorem map_fst_patch (l : List (Nat × NodeVal Data)) (img : List Nat) (o n : Nat) :
    (l.map fun e =>
        if img.contains e.1 then (e.1, swapDependingNode o n e.2) else e).map Prod.fst =
      l.map Prod.fst := by
  induction l with
  | nil => rfl
  | cons hd tl ih =>
    simp only [List.map_cons, fst_patch_eq img o n hd, ih]

/-- C7: atomic resolution.  For a string grammar, an atomic rule text naming
a token with no registry entry auto-creates a fresh leaf wrapping the
literal token, registers it under the token, and binds the compiled name to
that same node — exactly one node is allocated, none for the alias.  For any
other payload type the same situation raises `Rule404Exception`.  And
whenever the token does resolve (any payload type), the compiled name is
bound to the resolved node's id with no allocation at all (`nextId` and the
arena's ids are unchanged). -/
theorem c7_atomic_alias :
    (∀ (st : GrammarState Str) (name tok : Str),
       lookupAssoc st.rules tok = none → lookupAssoc st.rules name = none →
       okProj (addSingleRule (some fun s => s) st name tok)
           (fun st' => (lookupAssoc st'.rules tok, lookupAssoc st'.rules name,
             nodeAt st' st.nextId, st'.nextId)) =
         some (some st.nextId, some st.nextId, some (.leaf tok), st.nextId + 1)) ∧
    (∀ (Data : Type) (st : GrammarState Data) (name tok : Str),
       lookupAssoc st.rules tok = none →
       addSingleRule none st name tok = .error .rule404) ∧
    (∀ (Data : Type) (promote : Option (Str → Data)) (st : GrammarState Data)
       (name tok : Str) (rid : Nat),
       lookupAssoc st.rules tok = some rid →
       okProj (addSingleRule promote st name tok)
           (fun st' => (lookupAssoc st'.rules name, st'.nextId,
             st'.nodes.map Prod.fst)) =
         some (some rid, st.nextId, st.nodes.map Prod.fst)) := by
  refine ⟨?_, ?_, ?_⟩
  · intro st name tok hTok hName
    by_cases hnt : name = tok
    · subst hnt
      simp [addSingleRule, hTok, registerOrChange, lookup_setAssoc_self, changeRule,
        allocNode, okProj, nodeAt, arenaAt]
    · have htn : ¬ tok = name := fun h => hnt h.symm
      have e1 := lookup_setAssoc_ne st.rules tok name st.nextId htn
      have e2 := lookup_setAssoc_ne (setAssoc st.rules tok st.nextId) name tok st.nextId hnt
      simp [addSingleRule, hTok, registerOrChange, allocNode, okProj, nodeAt, arenaAt,
        e1, e2, hName, lookup_setAssoc_self]
  · intro Data st name tok hTok
    simp [addSingleRule, hTok]
  · intro Data promote st name tok rid hTok
    cases hn : lookupAssoc st.rules name with
    | none =>
      simp [addSingleRule, hTok, registerOrChange, hn, okProj, lookup_setAssoc_self]
    | some old =>
      by_cases ho : old = rid
      · subst ho
        simp [addSingleRule, hTok, registerOrChange, hn, changeRule, okProj]
      · simp [addSingleRule, hTok, registerOrChange, hn, changeRule, ho, okProj,
          lookup_setAssoc_self, map_fst_patch]
        intro a b _
        exact fst_patch_eq ((setAssoc st.rules name rid).map Prod.snd) old rid (a, b)

/-- C7 witness: in a fresh string grammar, the atomic text `"x"` under the
name `N` auto-creates the leaf `"x"` as node `0`, registers it under `"x"`,
and aliases `N` to the same node `0`, allocating exactly one node; the same
call in a non-string grammar (`Data = Nat`) fails with `Rule404Exception`;
and with `"x"` already resolved, compiling `N := "x"` binds `N` to node `0`
with no allocation. -/
theorem c7_witness :
    okProj (addSingleRule (some fun s => s) emptyGrammar "N".toList "x".toList)
        (fun st' => (lookupAssoc st'.rules "x".toList, lookupAssoc st'.rules "N".toList,
          nodeAt st' 0, st'.nextId)) =
      some (some 0, some 0, some (.leaf "x".toList), 1) ∧
    addSingleRule (none : Option (Str → Nat)) emptyGrammar "N".toList "x".toList =
      .error .rule404 ∧
    okProj (addSingleRule (some fun s => s)
        (⟨[(0, .leaf "x".toList)], [("x".toList, 0)], 1⟩ : GrammarState Str)
        "N".toList "x".toList)
        (fun st' => (lookupAssoc st'.rules "N".toList, st'.nextId,
          st'.nodes.map Prod.fst)) =
      some (some 0, 1, [0]) := by
  refine ⟨?_, ?_, ?_⟩
  · exact c7_atomic_alias.1 emptyGrammar "N".toList "x".toList rfl rfl
  · exact c7_atomic_alias.2.1 Nat emptyGrammar "N".toList "x".toList rfl
  · exact c7_atomic_alias.2.2 Str (some fun s => s)
      ⟨[(0, .leaf "x".toList)], [("x".toList, 0)], 1⟩ "N".toList "x".toList 0 rfl

end SG
